import Mathlib

/-!
# Verification of the `datastructures` string store (`src/datastructure/string.go`)

Shallow embedding of the Go `StringStore`: a concurrency-free functional model
of the map operations.  Wall-clock instants (`time.Time`) are modelled as
integers; the Go zero value `time.Time{}` becomes the integer `0`, and real
clock readings are strictly positive (the Go zero time is year 1, every actual
`time.Now()` is after it).  `time.Duration` is likewise an integer.  Go's
`t1.After(t2)` is strict `>` and `t.IsZero()` is `= 0`.

Go `int` is the 64-bit machine integer of a 64-bit platform: values live in
`[-2^63, 2^63)`, addition wraps (two's complement, `wrap64` below), and
`fmt.Sscanf`'s `%d` verb rejects numerals outside that range (it parses via
`strconv.ParseInt` with the platform bit size).

Each Go method becomes a pure function threading the store state; the
`time.Now()` calls inside a method are modelled as one `now` parameter.
-/

set_option autoImplicit false

namespace Datastructures

/-- Go `t1.After(t2)`: strict wall-clock comparison. -/
def timeAfter (t1 t2 : Int) : Bool := decide (t1 > t2)

/-- Go `t.IsZero()`: the zero `time.Time` value is the integer `0`. -/
def timeIsZero (t : Int) : Bool := decide (t = 0)

/-- `stringEntry`: a stored value with metadata (string.go lines 16-20). -/
structure stringEntry where
  value : String
  createdAt : Int
  expiresAt : Int
  deriving Repr, DecidableEq

/-- `StringStore.data`: Go's `map[string]stringEntry`, modelled as an
association list with at most one binding per key (Go maps never hold
duplicate keys; every operation below preserves that). -/
structure StringStore where
  data : List (String × stringEntry)
  deriving Repr, DecidableEq

/-- Go map read `s.data[key]`: first binding for `key`, if any. -/
def getAssoc : List (String × stringEntry) → String → Option stringEntry
  | [], _ => none
  | (k, e) :: rest, key => if k = key then some e else getAssoc rest key

/-- Go map write `s.data[key] = e`: replace the binding if present,
otherwise append a fresh one. -/
def setAssoc : List (String × stringEntry) → String → stringEntry → List (String × stringEntry)
  | [], key, e => [(key, e)]
  | (k, e') :: rest, key, e =>
    if k = key then (key, e) :: rest else (k, e') :: setAssoc rest key e

/-- Go map removal `delete(s.data, key)`: drop every binding for `key`
(there is at most one). -/
def delAssoc (m : List (String × stringEntry)) (key : String) : List (String × stringEntry) :=
  m.filter (fun p => ¬ p.1 = key)

/-- `Set` (string.go lines 35-47): insert or fully replace; `createdAt = now`,
`expiresAt = now + expiration`, unconditionally.  The Go method always
returns `nil`, so no error component is modelled. -/
def Set (s : StringStore) (key value : String) (expiration : Int) (now : Int) : StringStore :=
  { data := setAssoc s.data key { value := value, createdAt := now, expiresAt := now + expiration } }

/-- `Get` (string.go lines 50-65).  Faithful to the source: the expiry check is
`time.Now().After(entry.expiresAt)` with NO `IsZero` guard. -/
def Get (s : StringStore) (key : String) (now : Int) : String × Bool :=
  match getAssoc s.data key with
  | none => ("", false)
  | some entry =>
    if timeAfter now entry.expiresAt then ("", false)
    else (entry.value, true)

/-- `Delete` (string.go lines 68-78). -/
def Delete (s : StringStore) (key : String) : StringStore × Bool :=
  match getAssoc s.data key with
  | none => (s, false)
  | some _ => ({ data := delAssoc s.data key }, true)

/-- `math.MinInt64`: the least value of Go's `int` on a 64-bit platform. -/
def int64Min : Int := -9223372036854775808

/-- `math.MaxInt64`: the greatest value of Go's `int` on a 64-bit platform. -/
def int64Max : Int := 9223372036854775807

/-- A mathematical integer representable in Go's `int`. -/
def inInt64Range (n : Int) : Prop := int64Min ≤ n ∧ n ≤ int64Max

instance (n : Int) : Decidable (inInt64Range n) := by
  unfold inInt64Range
  infer_instance

/-- Two's-complement 64-bit wraparound: the value a Go `int` addition
produces when the mathematical sum of its (in-range) operands is `x`. -/
def wrap64 (x : Int) : Int :=
  (x + 9223372036854775808) % 18446744073709551616 - 9223372036854775808

/-- The whitespace `fmt`'s scanner skips before a verb: its `space` table
(ASCII blanks `\t \v \f \r` and space, NEL, NBSP and the Unicode space
code points) minus `\n` — with no newline in the format string, a newline
in the input is a scan error, so the scan must stop on it instead of
skipping it. -/
def isGoScanSpace (c : Char) : Bool :=
  decide (c.toNat = 0x20 ∨ (0x09 ≤ c.toNat ∧ c.toNat ≤ 0x0d ∧ c.toNat ≠ 0x0a) ∨
    c.toNat = 0x85 ∨ c.toNat = 0xa0 ∨ c.toNat = 0x1680 ∨
    (0x2000 ≤ c.toNat ∧ c.toNat ≤ 0x200a) ∨ c.toNat = 0x2028 ∨ c.toNat = 0x2029 ∨
    c.toNat = 0x202f ∨ c.toNat = 0x205f ∨ c.toNat = 0x3000)

/-- The digits the `%d` verb accepts in base 10: ASCII `0`-`9` only. -/
def isGoDigit (c : Char) : Bool :=
  decide (48 ≤ c.toNat ∧ c.toNat ≤ 57)

/-- Decimal digit run value, most significant first: the value `fmt`'s
scanner assembles from consecutive ASCII digits. -/
def digitsVal (ds : List Char) : Nat :=
  ds.foldl (fun a c => 10 * a + (c.toNat - 48)) 0

/-- Optional leading sign, as consumed by `fmt`'s `%d` verb:
returns (isNegative, remaining input). -/
def scanSign (cs : List Char) : Bool × List Char :=
  match cs with
  | [] => (false, [])
  | c :: rest =>
    if c = '-' then (true, rest)
    else if c = '+' then (false, rest)
    else (false, c :: rest)

/-- `fmt.Sscanf(v, "%d", &x)` (string.go line 99): skip leading scanner
spaces (a bare newline is a scan error, so it stops the scan), then an
optional sign and at least one ASCII digit; trailing non-digit input is
ignored (Go's `Sscanf` succeeds on `"7x"`, reading `7`).  The digits are
converted by `strconv.ParseInt` with the 64-bit `int` size, so a numeral
outside `[int64Min, int64Max]` is a range error.  `none` models every
scan error. -/
def sscanfInt (v : String) : Option Int :=
  let cs := v.data.dropWhile isGoScanSpace
  let p := scanSign cs
  let ds := p.2.takeWhile isGoDigit
  if ds.isEmpty then none
  else
    let signed : Int := if p.1 then -(digitsVal ds : Int) else (digitsVal ds : Int)
    if signed < int64Min ∨ int64Max < signed then none
    else some signed

/-- The spec's words, for comparison with `sscanfInt`: the whole value is a
base-10 integer — an optional sign followed by one or more digits and
nothing else. -/
def specParseInt (v : String) : Option Int :=
  let p := scanSign v.data
  if p.2.isEmpty ∨ ¬ p.2.all isGoDigit then none
  else some (if p.1 then -(digitsVal p.2 : Int) else (digitsVal p.2 : Int))

/-- `fmt.Sprintf("%d", n)`: decimal rendering of a Go integer. -/
def intToDecString (n : Int) : String :=
  if n < 0 then "-" ++ Nat.repr n.natAbs else Nat.repr n.natAbs

/-- The `Increment` error (string.go line 101): `"cannot increment non-numeric value"`. -/
inductive IncrementError where
  | nonNumericValue
  deriving Repr, DecidableEq

/-- `Increment` (string.go lines 81-115).  On a missing key, creates the
entry with value `delta`, `createdAt = now`, `expiresAt = time.Time{}`
(the zero sentinel, commented `// No expiration`).  On a present key,
scans the stored value with `%d`; on scan error returns the non-numeric
error with the store untouched, otherwise writes back
`currentValue + delta` — a Go machine-`int` addition, which wraps at 64
bits — keeping `createdAt` and `expiresAt`. -/
def Increment (s : StringStore) (key : String) (delta : Int) (now : Int) :
    StringStore × Except IncrementError Int :=
  match getAssoc s.data key with
  | none =>
    let newValue := delta
    ({ data := setAssoc s.data key
        { value := intToDecString newValue, createdAt := now, expiresAt := 0 } },
     Except.ok newValue)
  | some entry =>
    match sscanfInt entry.value with
    | none => (s, Except.error IncrementError.nonNumericValue)
    | some currentValue =>
      let newValue := wrap64 (currentValue + delta)
      ({ data := setAssoc s.data key
          { value := intToDecString newValue, createdAt := entry.createdAt,
            expiresAt := entry.expiresAt } },
       Except.ok newValue)

/-- One wake of `backgroundCleanup` (string.go lines 118-134): under the
write lock, delete every entry with `!expiresAt.IsZero() && now.After(expiresAt)`. -/
def backgroundCleanupPass (s : StringStore) (now : Int) : StringStore :=
  { data := s.data.filter (fun p => !(!timeIsZero p.2.expiresAt && timeAfter now p.2.expiresAt)) }

/-- `Keys` (string.go lines 137-146): the loop `for key := range s.data`
appending each key. -/
def Keys (s : StringStore) : List String :=
  s.data.foldl (fun keys p => keys ++ [p.1]) []

/-! ## Map lemmas -/

theorem getAssoc_setAssoc_self (m : List (String × stringEntry)) (k : String) (e : stringEntry) :
    getAssoc (setAssoc m k e) k = some e := by
  induction m with
  | nil => simp [setAssoc, getAssoc]
  | cons p rest ih =>
    obtain ⟨k0, e0⟩ := p
    by_cases h0 : k0 = k
    · simp [setAssoc, h0, getAssoc]
    · simp [setAssoc, h0, getAssoc, ih]

theorem getAssoc_setAssoc_ne (m : List (String × stringEntry)) (k k' : String) (e : stringEntry)
    (h : k ≠ k') : getAssoc (setAssoc m k e) k' = getAssoc m k' := by
  induction m with
  | nil => simp [setAssoc, getAssoc, h]
  | cons p rest ih =>
    obtain ⟨k0, e0⟩ := p
    by_cases h0 : k0 = k
    · subst h0
      simp [setAssoc, getAssoc, h]
    · simp [setAssoc, h0, getAssoc, ih]

theorem getAssoc_delAssoc_self (m : List (String × stringEntry)) (k : String) :
    getAssoc (delAssoc m k) k = none := by
  induction m with
  | nil => rfl
  | cons p rest ih =>
    obtain ⟨k0, e0⟩ := p
    simp only [delAssoc, List.filter_cons, decide_not] at ih ⊢
    by_cases h0 : k0 = k
    · simp [h0, ih]
    · simp [h0, getAssoc, ih]

theorem getAssoc_delAssoc_ne (m : List (String × stringEntry)) (k k' : String) (h : k ≠ k') :
    getAssoc (delAssoc m k) k' = getAssoc m k' := by
  induction m with
  | nil => rfl
  | cons p rest ih =>
    obtain ⟨k0, e0⟩ := p
    simp only [delAssoc, List.filter_cons, decide_not] at ih ⊢
    by_cases h0 : k0 = k
    · simp [h0, h, getAssoc, ih]
    · simp [h0, getAssoc, ih]

theorem foldl_append_keys (l : List (String × stringEntry)) (acc : List String) :
    l.foldl (fun keys p => keys ++ [p.1]) acc = acc ++ l.map Prod.fst := by
  induction l generalizing acc with
  | nil => simp
  | cons p rest ih => simp [List.foldl_cons, ih]

theorem mem_keys_iff_getAssoc (m : List (String × stringEntry)) (k : String) :
    k ∈ m.map Prod.fst ↔ (getAssoc m k).isSome := by
  induction m with
  | nil => simp [getAssoc]
  | cons p rest ih =>
    obtain ⟨k0, e0⟩ := p
    by_cases h0 : k0 = k
    · simp [getAssoc, h0]
    · have h' : ¬ (k = k0) := fun hh => h0 hh.symm
      simp [getAssoc, h0, h', ih]

/-! ## Scanner lemmas -/

theorem digit_not_goSpace (c : Char) (h : isGoDigit c = true) : isGoScanSpace c = false := by
  simp only [isGoDigit, decide_eq_true_eq] at h
  simp only [isGoScanSpace, decide_eq_false_iff_not]
  omega

theorem dropWhile_cons_of_neg {p : Char → Bool} (c : Char) (l : List Char) (h : p c = false) :
    (c :: l).dropWhile p = c :: l := by
  simp [List.dropWhile, h]

theorem takeWhile_all {p : Char → Bool} (l : List Char) (h : l.all p = true) :
    l.takeWhile p = l := by
  induction l with
  | nil => rfl
  | cons c rest ih =>
    simp only [List.all_cons, Bool.and_eq_true] at h
    simp [List.takeWhile_cons, h.1, ih h.2]

/-- A value the spec's strict reading parses, when its value fits in Go's
`int`, is also accepted by the `%d` scan, with the same result: the
strict parse is the `cs = full string, all digits after the sign, value
in range` special case of the scan. -/
theorem specParse_imp_sscanf (v : String) (n : Int) (h : specParseInt v = some n)
    (hr : inInt64Range n) : sscanfInt v = some n := by
  simp only [specParseInt] at h
  split at h
  · exact absurd h (by simp)
  · rename_i hc
    have hne : ¬ (scanSign v.data).2.isEmpty = true := fun h' => hc (Or.inl h')
    have hall : (scanSign v.data).2.all isGoDigit = true := by
      by_contra h'
      exact hc (Or.inr h')
    have hdrop : v.data.dropWhile isGoScanSpace = v.data := by
      cases hv : v.data with
      | nil => rfl
      | cons c rest =>
        by_cases h1 : c = '-'
        · exact dropWhile_cons_of_neg c rest (by rw [h1]; decide)
        · by_cases h2 : c = '+'
          · exact dropWhile_cons_of_neg c rest (by rw [h2]; decide)
          · have hsc : (scanSign v.data).2 = c :: rest := by
              rw [hv]
              simp [scanSign, h1, h2]
            rw [hsc] at hall
            simp only [List.all_cons, Bool.and_eq_true] at hall
            exact dropWhile_cons_of_neg c rest (digit_not_goSpace c hall.1)
    simp only [sscanfInt, hdrop, takeWhile_all _ hall]
    rw [if_neg hne]
    rw [Option.some.inj h]
    have hnr : ¬ (n < int64Min ∨ int64Max < n) := by
      rcases hr with ⟨hr1, hr2⟩
      simp only [int64Min, int64Max] at hr1 hr2 ⊢
      omega
    rw [if_neg hnr]

/-! ## Claim theorems -/

/-- Claim C1 (code behavior at the failing input): `Increment` on the absent
key `"missing"` with delta 5 does return 5 and does create the entry
`("5", createdAt = 100, expiresAt = 0)` with the no-expiration sentinel —
but the subsequent `Get` at any positive time returns `("", false)`, not
`("5", true)` as the claim states: `Get` tests `now.After(expiresAt)`
without an `IsZero` guard, and every positive instant is after the zero
time. -/
theorem c1_increment_create_then_get :
    (Increment ⟨[]⟩ "missing" 5 100).2 = Except.ok 5 ∧
    getAssoc (Increment ⟨[]⟩ "missing" 5 100).1.data "missing" =
      some { value := "5", createdAt := 100, expiresAt := 0 } ∧
    Get (Increment ⟨[]⟩ "missing" 5 100).1 "missing" 200 = ("", false) ∧
    Get (Increment ⟨[]⟩ "missing" 5 100).1 "missing" 1000000 = ("", false) :=
  ⟨rfl, rfl, rfl, rfl⟩

/-- Claim C2 (counterexample): no single duration value makes `Set` store
the absent-expiry sentinel at every (positive) call time — `Set`
unconditionally stores `expiresAt = now + duration`, so it recognizes no
distinguished "no expiration" duration. -/
theorem c2_counterexample_no_sentinel_duration :
    ¬ ∃ noExp : Int, ∀ now : Int, 0 < now →
      getAssoc (Set ⟨[]⟩ "k" "v" noExp now).data "k" =
        some { value := "v", createdAt := now, expiresAt := 0 } := by
  rintro ⟨d, hd⟩
  have h1 := hd ((d.natAbs : Int) + 1) (by omega)
  simp [Set, setAssoc, getAssoc] at h1
  rcases le_or_lt 0 d with hc | hc
  · rw [abs_of_nonneg hc] at h1
    omega
  · rw [abs_of_neg hc] at h1
    omega

/-- Claim C2 (amended): `Set` has no special case at all — for every
duration it stores `expiresAt = now + duration`; in particular a duration
of exactly zero yields `expiresAt = now`. -/
theorem c2_amended_set_always_adds_duration (s : StringStore) (k v : String) (d now : Int) :
    getAssoc (Set s k v d now).data k =
      some { value := v, createdAt := now, expiresAt := now + d } ∧
    getAssoc (Set s k v 0 now).data k =
      some { value := v, createdAt := now, expiresAt := now } := by
  refine ⟨?_, ?_⟩
  · simpa [Set] using getAssoc_setAssoc_self s.data k ⟨v, now, now + d⟩
  · simpa [Set] using getAssoc_setAssoc_self s.data k ⟨v, now, now + 0⟩

/-- Claim C3 (counterexample): `"7x"` is not a base-10 integer, yet
`Increment` does not fail on it — `fmt.Sscanf` with `%d` reads the prefix
`7` and ignores the trailing `x`, so the call returns `ok 8` and rewrites
the entry to `"8"`. -/
theorem c3_counterexample_prefix_parse :
    specParseInt "7x" = none ∧
    (Increment ⟨[("s", { value := "7x", createdAt := 1, expiresAt := 0 })]⟩ "s" 1 50).2 =
      Except.ok 8 ∧
    getAssoc
        (Increment ⟨[("s", { value := "7x", createdAt := 1, expiresAt := 0 })]⟩ "s" 1 50).1.data
        "s" =
      some { value := "8", createdAt := 1, expiresAt := 0 } :=
  ⟨rfl, rfl, rfl⟩

/-- Claim C3 (amended): for a present key, `Increment` returns the
non-numeric error exactly when the `%d` scan of the stored value fails —
no digit after optional scanner spaces and an optional sign, or a numeral
outside the 64-bit `int` range — and in that case the whole store is
returned unchanged. -/
theorem c3_amended_increment_error_iff (s : StringStore) (k : String) (delta now : Int)
    (e : stringEntry) (h : getAssoc s.data k = some e) :
    ((Increment s k delta now).2 = Except.error IncrementError.nonNumericValue ↔
      sscanfInt e.value = none) ∧
    (sscanfInt e.value = none →
      Increment s k delta now = (s, Except.error IncrementError.nonNumericValue)) := by
  unfold Increment
  rw [h]
  cases hscan : sscanfInt e.value with
  | none => simp [hscan]
  | some m => simp [hscan]

theorem c3_amended_witness :
    ((Increment ⟨[("s", { value := "abc", createdAt := 1, expiresAt := 0 })]⟩ "s" 1 50).2 =
        Except.error IncrementError.nonNumericValue ↔
      sscanfInt (stringEntry.mk "abc" 1 0).value = none) ∧
    (sscanfInt (stringEntry.mk "abc" 1 0).value = none →
      Increment ⟨[("s", { value := "abc", createdAt := 1, expiresAt := 0 })]⟩ "s" 1 50 =
        (⟨[("s", { value := "abc", createdAt := 1, expiresAt := 0 })]⟩,
         Except.error IncrementError.nonNumericValue)) :=
  c3_amended_increment_error_iff
    ⟨[("s", { value := "abc", createdAt := 1, expiresAt := 0 })]⟩ "s" 1 50
    (stringEntry.mk "abc" 1 0) rfl

/-- Claim C4 (code behavior at the failing input): an entry with the absent
expiry sentinel (`expiresAt = 0`) is live by the claim's definition, yet
`Get` at time 100 returns `("", false)`: the source checks
`time.Now().After(entry.expiresAt)` with no `IsZero` guard, so the
sentinel is always "in the past". The entry is left in the map. -/
theorem c4_get_ignores_zero_expiry :
    getAssoc ([("k", { value := "v", createdAt := 10, expiresAt := 0 })] :
        List (String × stringEntry)) "k" =
      some { value := "v", createdAt := 10, expiresAt := 0 } ∧
    Get ⟨[("k", { value := "v", createdAt := 10, expiresAt := 0 })]⟩ "k" 100 = ("", false) :=
  ⟨rfl, rfl⟩

/-- Claim C5: Set followed by Get before the ttl elapses returns the value
with found = true. -/
theorem c5_set_get_roundtrip (s : StringStore) (k v : String) (ttl now t : Int)
    (_httl : 0 < ttl) (ht : t ≤ now + ttl) :
    Get (Set s k v ttl now) k t = (v, true) := by
  have hb : timeAfter t (now + ttl) = false := by
    simp only [timeAfter, decide_eq_false_iff_not, not_lt]
    omega
  simp [Get, Set, getAssoc_setAssoc_self, hb]

theorem c5_witness :
    (0 : Int) < 10 ∧ (105 : Int) ≤ 100 + 10 ∧
    Get (Set ⟨[]⟩ "k" "v" 10 100) "k" 105 = ("v", true) :=
  ⟨by decide, by decide, c5_set_get_roundtrip ⟨[]⟩ "k" "v" 10 100 105 (by decide) (by decide)⟩

/-- Claim C6 (counterexample): at the stored value `MaxInt64`, which the
spec's reading parses as n = 9223372036854775807, `Increment` with
delta 1 returns the wrapped machine sum `MinInt64` and stores its decimal
string — not `n + delta = 9223372036854775808` as the claim states: Go's
`int` addition wraps at 64 bits. -/
theorem c6_counterexample_overflow :
    specParseInt "9223372036854775807" = some 9223372036854775807 ∧
    (Increment
        ⟨[("n", { value := "9223372036854775807", createdAt := 2, expiresAt := 9 })]⟩
        "n" 1 50).2 =
      Except.ok (-9223372036854775808) ∧
    getAssoc
        (Increment
          ⟨[("n", { value := "9223372036854775807", createdAt := 2, expiresAt := 9 })]⟩
          "n" 1 50).1.data "n" =
      some { value := "-9223372036854775808", createdAt := 2, expiresAt := 9 } ∧
    (-9223372036854775808 : Int) ≠ 9223372036854775807 + 1 :=
  ⟨rfl, rfl, rfl, by decide⟩

/-- Claim C6 (amended): when the stored value parses as the base-10
integer `n` and `n` is representable in Go's `int` (otherwise the `%d`
scan itself fails with a range error), `Increment` with a (necessarily
in-range) Go `int` delta returns the 64-bit wrapped sum of `n` and
`delta`, and rewrites the entry's value to that wrapped sum's decimal
string, preserving `createdAt` and `expiresAt`; the wrapped sum is
`n + delta` itself whenever that sum does not overflow. -/
theorem c6_amended_increment_numeric (s : StringStore) (k : String) (delta now : Int)
    (e : stringEntry) (n : Int) (he : getAssoc s.data k = some e)
    (hn : specParseInt e.value = some n) (hr : inInt64Range n) (_hd : inInt64Range delta) :
    (Increment s k delta now).2 = Except.ok (wrap64 (n + delta)) ∧
    getAssoc (Increment s k delta now).1.data k =
      some { value := intToDecString (wrap64 (n + delta)), createdAt := e.createdAt,
             expiresAt := e.expiresAt } ∧
    (inInt64Range (n + delta) → wrap64 (n + delta) = n + delta) := by
  have hs := specParse_imp_sscanf e.value n hn hr
  refine ⟨?_, ?_, ?_⟩
  · unfold Increment
    rw [he]
    dsimp only
    rw [hs]
  · unfold Increment
    rw [he]
    dsimp only
    rw [hs]
    exact getAssoc_setAssoc_self s.data k _
  · intro hin
    rcases hin with ⟨h1, h2⟩
    simp only [int64Min, int64Max] at h1 h2
    unfold wrap64
    omega

theorem c6_amended_witness :
    getAssoc ((⟨[("n", { value := "10", createdAt := 3, expiresAt := 77 })]⟩ :
        StringStore)).data "n" =
      some { value := "10", createdAt := 3, expiresAt := 77 } ∧
    specParseInt (stringEntry.mk "10" 3 77).value = some 10 ∧
    inInt64Range 10 ∧ inInt64Range 5 ∧
    ((Increment ⟨[("n", { value := "10", createdAt := 3, expiresAt := 77 })]⟩ "n" 5 50).2 =
        Except.ok (wrap64 (10 + 5)) ∧
      getAssoc
          (Increment ⟨[("n", { value := "10", createdAt := 3, expiresAt := 77 })]⟩ "n" 5 50).1.data
          "n" =
        some { value := intToDecString (wrap64 (10 + 5)),
               createdAt := (stringEntry.mk "10" 3 77).createdAt,
               expiresAt := (stringEntry.mk "10" 3 77).expiresAt } ∧
      (inInt64Range (10 + 5) → wrap64 (10 + 5) = 10 + 5)) :=
  ⟨rfl, rfl, by decide, by decide,
    c6_amended_increment_numeric ⟨[("n", { value := "10", createdAt := 3, expiresAt := 77 })]⟩
      "n" 5 50 (stringEntry.mk "10" 3 77) 10 rfl rfl (by decide) (by decide)⟩

/-- The Go sweeper keeps an entry exactly when its expiry is the zero
sentinel or has not yet passed. -/
theorem cleanup_keep_iff (now t : Int) :
    (!(!timeIsZero t && timeAfter now t)) = true ↔ (t = 0 ∨ now ≤ t) := by
  by_cases h0 : t = 0
  · simp [timeIsZero, timeAfter, h0]
  · by_cases h1 : now ≤ t
    · simp [timeIsZero, timeAfter, h0, h1, not_lt.mpr h1]
    · simp [timeIsZero, timeAfter, h0, h1, not_le.mp h1]

/-- Claim C7: one sweeper pass keeps exactly the entries whose `expiresAt`
is the absent sentinel or has not passed; all others are removed. -/
theorem c7_cleanup_pass (s : StringStore) (now : Int) (k : String) (e : stringEntry) :
    (k, e) ∈ (backgroundCleanupPass s now).data ↔
      ((k, e) ∈ s.data ∧ (e.expiresAt = 0 ∨ now ≤ e.expiresAt)) := by
  simp only [backgroundCleanupPass, List.mem_filter, cleanup_keep_iff]

/-- Claim C8: `Keys` is exactly the key of every binding physically in the
map — no liveness filtering at any time — and a key is listed iff it is
physically present. -/
theorem c8_keys_all_physical (s : StringStore) :
    Keys s = s.data.map Prod.fst ∧
    ∀ k : String, (k ∈ Keys s ↔ (getAssoc s.data k).isSome) := by
  have h : Keys s = s.data.map Prod.fst := by
    simpa [Keys] using foldl_append_keys s.data []
  exact ⟨h, fun k => by rw [h]; exact mem_keys_iff_getAssoc s.data k⟩

/-- Claim C9: `Delete` on an absent key returns false and changes nothing;
on a present key it returns true, removes the binding, and a subsequent
`Get` at any time misses. -/
theorem c9_delete (s : StringStore) (k : String) (now : Int) :
    (getAssoc s.data k = none → Delete s k = (s, false)) ∧
    (∀ e, getAssoc s.data k = some e →
      (Delete s k).2 = true ∧
      getAssoc (Delete s k).1.data k = none ∧
      Get (Delete s k).1 k now = ("", false)) := by
  constructor
  · intro h
    unfold Delete
    rw [h]
  · intro e h
    unfold Delete
    rw [h]
    refine ⟨rfl, ?_, ?_⟩
    · simpa using getAssoc_delAssoc_self s.data k
    · simp [Get, getAssoc_delAssoc_self]

theorem c9_delete_witness :
    (Delete ⟨[("k", { value := "v", createdAt := 1, expiresAt := 5 })]⟩ "k").2 = true ∧
    getAssoc (Delete ⟨[("k", { value := "v", createdAt := 1, expiresAt := 5 })]⟩ "k").1.data
        "k" = none ∧
    Get (Delete ⟨[("k", { value := "v", createdAt := 1, expiresAt := 5 })]⟩ "k").1 "k" 100 =
      ("", false) :=
  (c9_delete ⟨[("k", { value := "v", createdAt := 1, expiresAt := 5 })]⟩ "k" 100).2
    (stringEntry.mk "v" 1 5) rfl

/-- Claim C10: `Set`, `Delete` and `Increment` on key `k` leave the binding
of every other key `k'` untouched. -/
theorem c10_frame (s : StringStore) (k k' v : String) (d delta now : Int) (h : k ≠ k') :
    getAssoc (Set s k v d now).data k' = getAssoc s.data k' ∧
    getAssoc (Delete s k).1.data k' = getAssoc s.data k' ∧
    getAssoc (Increment s k delta now).1.data k' = getAssoc s.data k' := by
  refine ⟨?_, ?_, ?_⟩
  · simpa [Set] using getAssoc_setAssoc_ne s.data k k' _ h
  · unfold Delete
    cases hx : getAssoc s.data k with
    | none => rfl
    | some e => simpa using getAssoc_delAssoc_ne s.data k k' h
  · unfold Increment
    cases hx : getAssoc s.data k with
    | none =>
      dsimp only
      simpa using getAssoc_setAssoc_ne s.data k k' _ h
    | some e =>
      dsimp only
      cases hs : sscanfInt e.value with
      | none => simp [hs]
      | some m =>
        simp only [hs]
        simpa using getAssoc_setAssoc_ne s.data k k' _ h

theorem c10_frame_witness :
    getAssoc
        (Set ⟨[("b", { value := "w", createdAt := 2, expiresAt := 3 })]⟩ "a" "x" 5 9).data "b" =
      getAssoc ((⟨[("b", { value := "w", createdAt := 2, expiresAt := 3 })]⟩ :
        StringStore)).data "b" ∧
    getAssoc
        (Delete ⟨[("b", { value := "w", createdAt := 2, expiresAt := 3 })]⟩ "a").1.data "b" =
      getAssoc ((⟨[("b", { value := "w", createdAt := 2, expiresAt := 3 })]⟩ :
        StringStore)).data "b" ∧
    getAssoc
        (Increment ⟨[("b", { value := "w", createdAt := 2, expiresAt := 3 })]⟩ "a" 7 9).1.data
        "b" =
      getAssoc ((⟨[("b", { value := "w", createdAt := 2, expiresAt := 3 })]⟩ :
        StringStore)).data "b" :=
  c10_frame ⟨[("b", { value := "w", createdAt := 2, expiresAt := 3 })]⟩ "a" "b" "x" 5 7 9
    (by decide)

end Datastructures
